import Mathlib

/-!
Verification of the noise-propagation translation experiment
(`src/input/error_injector.py`, `src/input/generator.py`,
`src/agents/pipeline.py`, `src/analysis/embeddings.py`).

Texts are modelled as `List Char`; Python floats are modelled as
rationals (`ℚ`); the process-global random source is modelled by
explicit parameters (a sampler for `random.sample` and a per-word
draw record for the character-level choices), so every theorem is
quantified over all possible random outcomes.  Fallible Python code
(code that raises) is modelled with `Except`.
-/

/-- Python `str.split()`: accumulate a word in `acc` (reversed), emit it at
whitespace boundaries, drop empty chunks. -/
def splitWordsAux : List Char → List Char → List (List Char)
  | [], acc => if acc = [] then [] else [acc.reverse]
  | c :: cs, acc =>
    if c.isWhitespace then
      if acc = [] then splitWordsAux cs [] else acc.reverse :: splitWordsAux cs []
    else splitWordsAux cs (c :: acc)

/-- Python `text.split()` (split on whitespace, discarding empty tokens). -/
def splitWords (s : List Char) : List (List Char) := splitWordsAux s []

/-- Python `" ".join(words)`. -/
def joinWords : List (List Char) → List Char
  | [] => []
  | [w] => w
  | w :: ws => w ++ ' ' :: joinWords ws

/-- The punctuation set `".,!?;:"` used by `ErrorInjector._corrupt_word`. -/
def punctChars : List Char := ['.', ',', '!', '?', ';', ':']

/-- The alphabet `"abcdefghijklmnopqrstuvwxyz"` used for insert/replace. -/
def lowercaseLetters : List Char := "abcdefghijklmnopqrstuvwxyz".data

/-- One word's worth of raw random draws for `_corrupt_word`: the error-type
choice, the position draw and the letter draw.  `random.choice` over 4
alternatives is `typePick % 4`, `random.randint(a, b)` is `a + posPick % (b - a + 1)`,
and a letter choice is `lowercaseLetters` indexed by `charPick % 26`; quantifying
over all records covers every behaviour of the Python RNG. -/
structure CorruptRng where
  typePick : Nat
  posPick : Nat
  charPick : Nat
deriving DecidableEq

/-- Python `ErrorInjector._swap_characters`: swap the adjacent characters at
`pos = randint(0, len - 2)` (only called with `len ≥ 3`). -/
def swapChars (g : CorruptRng) (word : List Char) : List Char :=
  if word.length < 2 then word
  else
    let pos := g.posPick % (word.length - 1)
    (word.set pos (word.getD (pos + 1) 'a')).set (pos + 1) (word.getD pos 'a')

/-- Python `ErrorInjector._delete_character`: delete the character at
`pos = randint(0, len - 1)`. -/
def deleteChar (g : CorruptRng) (word : List Char) : List Char :=
  if word.length < 2 then word
  else
    let pos := g.posPick % word.length
    word.take pos ++ word.drop (pos + 1)

/-- Python `ErrorInjector._insert_character`: insert a random lowercase letter at
`pos = randint(0, len)`. -/
def insertChar (g : CorruptRng) (word : List Char) : List Char :=
  let pos := g.posPick % (word.length + 1)
  let c := lowercaseLetters.getD (g.charPick % 26) 'a'
  word.take pos ++ c :: word.drop pos

/-- Python `ErrorInjector._replace_character`: overwrite the character at
`pos = randint(0, len - 1)` with a random lowercase letter. -/
def replaceChar (g : CorruptRng) (word : List Char) : List Char :=
  let pos := g.posPick % word.length
  let c := lowercaseLetters.getD (g.charPick % 26) 'a'
  word.take pos ++ c :: word.drop (pos + 1)

/-- The `random.choice` over the four edit operations in `_corrupt_word`. -/
def corruptCore (g : CorruptRng) (word : List Char) : List Char :=
  match g.typePick % 4 with
  | 0 => swapChars g word
  | 1 => deleteChar g word
  | 2 => insertChar g word
  | _ => replaceChar g word

/-- Python `ErrorInjector._corrupt_word`: words shorter than 3 characters are left
alone; a single trailing punctuation character is stripped (`word[:-1]`,
i.e. `dropLast`) and reattached (`word0.drop (word0.length - 1)` is the
stripped `word[-1]`); if the stripped token is shorter than 3 characters it
is returned unchanged with its punctuation, otherwise one of the four edits
is applied.  The second `length < 3` test is re-checked on the (possibly
stripped) token exactly as in the Python. -/
def corruptWord (g : CorruptRng) (word0 : List Char) : List Char :=
  if word0.length < 3 then word0
  else if punctChars.contains (word0.getLastD 'a') then
    (if word0.dropLast.length < 3 then word0.dropLast
     else corruptCore g word0.dropLast) ++ word0.drop (word0.length - 1)
  else if word0.length < 3 then word0
  else corruptCore g word0

/-- Length of a word after stripping a single trailing punctuation character
(the quantity `_corrupt_word` tests against 3). -/
def strippedLen (word : List Char) : Nat :=
  if word = [] then 0
  else if punctChars.contains (word.getLastD 'a') then word.length - 1
  else word.length

/-- Python `int(q)`: truncation toward zero. -/
def ratTrunc (q : ℚ) : Int := if 0 ≤ q then ⌊q⌋ else ⌈q⌉

/-- The count `num_errors = max(1, int(total_words * error_rate))` from
`ErrorInjector.inject_errors`. -/
def numErrorsOf (totalWords : Nat) (errorRate : ℚ) : Int :=
  max 1 (ratTrunc ((totalWords : ℚ) * errorRate))

/-- The index selection of `inject_errors`: all indices when
`num_errors >= total_words`, otherwise `random.sample(range(total_words), num_errors)`
modelled by the abstract `sample` parameter. -/
def errorIndicesOf (sample : Nat → Nat → List Nat) (totalWords : Nat) (errorRate : ℚ) :
    List Nat :=
  if (totalWords : Int) ≤ numErrorsOf totalWords errorRate then List.range totalWords
  else sample totalWords (numErrorsOf totalWords errorRate).toNat

/-- One assignment `words[idx] = self._corrupt_word(words[idx])`. -/
def applyStep (rngs : Nat → CorruptRng) (ws : List (List Char)) (idx : Nat) :
    List (List Char) :=
  ws.set idx (corruptWord (rngs idx) (ws.getD idx []))

/-- Python `ErrorInjector.inject_errors`: split, select indices, corrupt the selected
words in place, rejoin with single spaces, and report `len(error_indices)`. -/
def injectErrors (sample : Nat → Nat → List Nat) (rngs : Nat → CorruptRng)
    (text : List Char) (errorRate : ℚ) : List Char × Nat :=
  (joinWords ((errorIndicesOf sample (splitWords text).length errorRate).foldl
      (applyStep rngs) (splitWords text)),
   (errorIndicesOf sample (splitWords text).length errorRate).length)

/-- Contract of `random.sample(range(n), k)`: `k` distinct indices below `n`. -/
def SampleOk (s : List Nat) (n k : Nat) : Prop :=
  s.length = k ∧ s.Nodup ∧ ∀ i ∈ s, i < n

instance (s : List Nat) (n k : Nat) : Decidable (SampleOk s n k) := by
  unfold SampleOk; infer_instance

/-- A word as produced by `splitWords`: non-empty and whitespace-free. -/
def GoodWord (w : List Char) : Prop :=
  w ≠ [] ∧ ∀ c ∈ w, c.isWhitespace = false

instance (w : List Char) : Decidable (GoodWord w) := by
  unfold GoodWord; infer_instance

/-- The count `sum(1 for o, c in zip(a, b) if o != c)` from `calculate_actual_error_rate`. -/
def countDiff : List (List Char) → List (List Char) → Nat
  | a :: as, b :: bs => (if a ≠ b then 1 else 0) + countDiff as bs
  | _, _ => 0

/-- Python `calculate_actual_error_rate`: fraction of differing word positions, with
the `min/max` fallback when the word counts differ. -/
def calculateActualErrorRate (original corrupted : List Char) : ℚ :=
  if (splitWords original).length ≠ (splitWords corrupted).length then
    (min (splitWords original).length (splitWords corrupted).length : ℚ)
      / (max (splitWords original).length (splitWords corrupted).length : ℚ)
  else if splitWords original ≠ [] then
    (countDiff (splitWords original) (splitWords corrupted) : ℚ)
      / ((splitWords original).length : ℚ)
  else 0

/-- Python `round(q)` (round half to even), used to state the generator
invariant of the spec. -/
def pyRound (q : ℚ) : Int :=
  if q - ⌊q⌋ < 1 / 2 then ⌊q⌋
  else if 1 / 2 < q - ⌊q⌋ then ⌊q⌋ + 1
  else if ⌊q⌋ % 2 = 0 then ⌊q⌋ else ⌊q⌋ + 1

/-- The `TestCase` dataclass of `src/input/generator.py`. -/
structure TestCase where
  id : Nat
  original : List Char
  corrupted : List Char
  targetErrorRate : ℚ
  actualErrorRate : ℚ
  wordCount : Nat
  numErrors : Nat
deriving DecidableEq

/-- Python `TestCaseGenerator.generate_test_cases`: the cross product of base
sentences (outer loop) and error rates (inner loop), with sequential ids
starting at 1.  `sample k` and `rngs k` are the random draws consumed by the
`k`-th `inject_errors` call. -/
def generateTestCases (sample : Nat → Nat → Nat → List Nat) (rngs : Nat → Nat → CorruptRng)
    (sentences : List (List Char)) (errorRates : List ℚ) : List TestCase :=
  ((sentences.flatMap (fun s => errorRates.map (fun r => (s, r)))).enum).map
    (fun p =>
      { id := p.1 + 1
        original := p.2.1
        corrupted := (injectErrors (sample p.1) (rngs p.1) p.2.1 p.2.2).1
        targetErrorRate := p.2.2
        actualErrorRate := calculateActualErrorRate p.2.1
          (injectErrors (sample p.1) (rngs p.1) p.2.1 p.2.2).1
        wordCount := (splitWords p.2.1).length
        numErrors := (injectErrors (sample p.1) (rngs p.1) p.2.1 p.2.2).2 })

/-- Python `line.strip()`. -/
def pyStrip (l : List Char) : List Char :=
  ((l.dropWhile Char.isWhitespace).reverse.dropWhile Char.isWhitespace).reverse

/-- Whether `pat` starts `l` (helper for the Python `in` substring test). -/
def leadsList : List Char → List Char → Bool
  | [], _ => true
  | _ :: _, [] => false
  | a :: as, b :: bs => a = b && leadsList as bs

/-- Python `pat in l` for strings: `pat` occurs contiguously in `l`. -/
def containsList (pat : List Char) : List Char → Bool
  | [] => leadsList pat []
  | c :: cs => leadsList pat (c :: cs) || containsList pat cs

/-- Python `l[:l.rindex(c)]`: everything strictly before the last `c`. -/
def takeBeforeLast (c : Char) (l : List Char) : List Char :=
  ((l.reverse.dropWhile (fun x => x ≠ c)).drop 1).reverse

/-- One loop body of `TestCaseGenerator._load_base_sentences`: strip the line,
drop it when blank or a `#` comment, and remove a trailing parenthesized
word-count mark when `'('` and `"words)"` both occur. -/
def parseLine (line : List Char) : Option (List Char) :=
  let l := pyStrip line
  if l = [] then none
  else if l.headD ' ' = '#' then none
  else if containsList ['('] l && containsList "words)".data l then
    some (pyStrip (takeBeforeLast '(' l))
  else some l

/-- Python `TestCaseGenerator._load_base_sentences` as called by `__init__`: the file
is `none` when missing (Python's `open` raises `FileNotFoundError`, which
propagates out of the constructor), otherwise its list of lines. -/
def loadBaseSentences (file : Option (List (List Char))) :
    Except String (List (List Char)) :=
  match file with
  | none => Except.error "FileNotFoundError"
  | some lines => Except.ok (lines.filterMap parseLine)

/-- Whether an `Except` value is an error (Python: the call raised). -/
def exceptBad {ε α : Type} : Except ε α → Bool
  | Except.error _ => true
  | Except.ok _ => false

/-- The message carried by an `Except.error`, with a default for `ok`. -/
def errOf : Except String String → String
  | Except.error e => e
  | Except.ok _ => ""

/-- The retry loop body of `TranslationPipeline._call_agent`, iterating over
the remaining values of `range(max_retries)`.  `outcome a` is what the
external call returns (or raises) on attempt `a`.  The result records the
returned/raised value, the number of calls issued, and the list of backoff
sleeps performed (`2 ** attempt` for each non-final failed attempt). -/
def callAgentGo (outcome : Nat → Except String String) (agentName : String)
    (maxRetries : Nat) : List Nat → Except String String × Nat × List Nat
  | [] => (Except.ok "", 0, [])
  | attempt :: rest =>
    match outcome attempt with
    | Except.ok t => (Except.ok t, 1, [])
    | Except.error e =>
      if attempt = maxRetries - 1 then
        (Except.error ("Agent " ++ agentName ++ " failed after " ++ toString maxRetries
            ++ " attempts: " ++ e), 1, [])
      else
        let r := callAgentGo outcome agentName maxRetries rest
        (r.1, r.2.1 + 1, 2 ^ attempt :: r.2.2)

/-- Python `TranslationPipeline._call_agent`: `for attempt in range(max_retries)`. -/
def callAgent (outcome : Nat → Except String String) (agentName : String)
    (maxRetries : Nat) : Except String String × Nat × List Nat :=
  callAgentGo outcome agentName maxRetries (List.range maxRetries)

/-- The success record built by `TranslationPipeline.process` (its
`metadata.success` field is the `success` flag here; wall-clock duration is
not modelled). -/
structure ProcResult where
  testId : Nat
  original : String
  french : String
  hebrew : String
  final : String
  success : Bool
deriving DecidableEq

/-- Python `TranslationPipeline.process`: three sequential `_call_agent` stages;
an exception from any stage propagates (there is no handler in `process`).
`oracle agent input attempt` is the outcome of the external call. -/
def processPipe (oracle : String → String → Nat → Except String String)
    (maxRetries : Nat) (englishInput : String) (testId : Nat) :
    Except String ProcResult :=
  match (callAgent (oracle "agent1" englishInput) "agent1" maxRetries).1 with
  | Except.error e => Except.error e
  | Except.ok french =>
    match (callAgent (oracle "agent2" french) "agent2" maxRetries).1 with
    | Except.error e => Except.error e
    | Except.ok hebrew =>
      match (callAgent (oracle "agent3" hebrew) "agent3" maxRetries).1 with
      | Except.error e => Except.error e
      | Except.ok finalEnglish =>
        Except.ok { testId := testId, original := englishInput, french := french,
                    hebrew := hebrew, final := finalEnglish, success := true }

/-- One entry of the list returned by `TranslationPipeline.process_batch`:
either the `process` result augmented with the source test case's fields, or
the failure record `{"test_id": ..., "error": ..., "metadata": {"success": False}}`. -/
structure BatchResult where
  testId : Nat
  success : Bool
  errMsg : Option String
  trace : Option ProcResult
  sourceId : Option Nat
deriving DecidableEq

/-- Python `TranslationPipeline.process_batch`: run `process` per test case in input
order, catching the per-item exception into a failure record. -/
def processBatch (oracle : String → String → Nat → Except String String)
    (maxRetries : Nat) (testCases : List TestCase) : List BatchResult :=
  testCases.map (fun tc =>
    match processPipe oracle maxRetries (String.mk tc.corrupted) tc.id with
    | Except.ok r =>
      { testId := r.testId, success := r.success, errMsg := none,
        trace := some r, sourceId := some tc.id }
    | Except.error e =>
      { testId := tc.id, success := false, errMsg := some e,
        trace := none, sourceId := none })

/-- Numpy `np.dot` on two vectors (the analyzer's vectors are modelled over `ℝ`). -/
noncomputable def dotList : List ℝ → List ℝ → ℝ
  | a :: as, b :: bs => a * b + dotList as bs
  | _, _ => 0

/-- Numpy `np.linalg.norm v = sqrt(Σ v i ^ 2)`. -/
noncomputable def normList (v : List ℝ) : ℝ := Real.sqrt (dotList v v)

/-- Componentwise difference `emb1 - emb2` of two numpy vectors. -/
def subList (a b : List ℝ) : List ℝ := List.zipWith (fun x y => x - y) a b

/-- Python `SemanticAnalyzer.calculate_cosine_distance`; `emb` stands for
`get_embedding` (the cached embedding model, a pure function of the text
within one process state). -/
noncomputable def cosineDistance (emb : String → List ℝ) (text1 text2 : String) : ℝ :=
  1 - dotList (emb text1) (emb text2) / (normList (emb text1) * normList (emb text2))

/-- Python `SemanticAnalyzer.calculate_euclidean_distance`. -/
noncomputable def euclideanDistance (emb : String → List ℝ) (text1 text2 : String) : ℝ :=
  normList (subList (emb text1) (emb text2))

/-- Python `SemanticAnalyzer.calculate_distance`: dispatch on the metric name,
raising `ValueError(f"Unknown metric: {metric}")` otherwise. -/
noncomputable def calculateDistance (emb : String → List ℝ) (text1 text2 : String)
    (metric : String) : Except String ℝ :=
  if metric = "cosine" then Except.ok (cosineDistance emb text1 text2)
  else if metric = "euclidean" then Except.ok (euclideanDistance emb text1 text2)
  else Except.error ("Unknown metric: " ++ metric)

/-- Concrete sampler for witnesses: the first `k` indices. -/
def witSample (_n k : Nat) : List Nat := List.range k

/-- Concrete corruption draws for witnesses. -/
def witRng : CorruptRng := ⟨0, 0, 0⟩

/-- Concrete oracle for witnesses: every external call fails. -/
def witFailOracle : Nat → Except String String := fun _ => Except.error "boom"

/-- Default element used with `List.getD` over test cases. -/
def defaultTestCase : TestCase :=
  { id := 0, original := [], corrupted := [], targetErrorRate := 0,
    actualErrorRate := 0, wordCount := 0, numErrors := 0 }

/-- Default element used with `List.getD` over batch results. -/
def defaultBatchResult : BatchResult :=
  { testId := 0, success := false, errMsg := none, trace := none, sourceId := none }

/-- The test case produced by the generator on the sentence `"a b"` at rate
`1/2` with the concrete witness randomness: the single selected word `"a"`
is too short to corrupt, so the corrupted text equals the original while
`num_errors` is still reported as `1`. -/
def tcShort : TestCase :=
  { id := 1, original := ['a', ' ', 'b'], corrupted := ['a', ' ', 'b'],
    targetErrorRate := 1 / 2, actualErrorRate := 0, wordCount := 2, numErrors := 1 }

/-- Concrete test case for the batch witness. -/
def tcBatch : TestCase :=
  { id := 5, original := ['h', 'i'], corrupted := ['h', 'i'],
    targetErrorRate := 0, actualErrorRate := 0, wordCount := 1, numErrors := 1 }

/-- Concrete oracle for witnesses: every external call succeeds. -/
def witOkOracle : String → String → Nat → Except String String :=
  fun _ _ _ => Except.ok "ok"

/-! ### List helper lemmas -/

theorem getD_set_ne {α : Type} (l : List α) (v d : α) :
    ∀ i j : Nat, i ≠ j → (l.set i v).getD j d = l.getD j d := by
  induction l with
  | nil => intro i j _; rfl
  | cons a l ih =>
    intro i j hij
    cases i with
    | zero =>
      cases j with
      | zero => exact absurd rfl hij
      | succ j => simp [List.set]
    | succ i =>
      cases j with
      | zero => simp [List.set]
      | succ j => simpa [List.set] using ih i j (fun h => hij (by omega))

theorem getD_set_self {α : Type} (l : List α) (v d : α) :
    ∀ i : Nat, i < l.length → (l.set i v).getD i d = v := by
  induction l with
  | nil => intro i h; simp at h
  | cons a l ih =>
    intro i h
    cases i with
    | zero => rfl
    | succ i => simpa [List.set] using ih i (by simpa using h)

theorem getD_out {α : Type} (l : List α) (d : α) :
    ∀ i : Nat, l.length ≤ i → l.getD i d = d := by
  induction l with
  | nil => intro i _; cases i <;> rfl
  | cons a l ih =>
    intro i h
    cases i with
    | zero => simp at h
    | succ i => simpa using ih i (by simpa using h)

theorem getD_mem {α : Type} (l : List α) (d : α) :
    ∀ i : Nat, i < l.length → l.getD i d ∈ l := by
  induction l with
  | nil => intro i h; simp at h
  | cons a l ih =>
    intro i h
    cases i with
    | zero => simp
    | succ i => exact List.mem_cons_of_mem a (by simpa using ih i (by simpa using h))

/-! ### splitWords / joinWords -/

theorem splitWordsAux_word (w : List Char) :
    ∀ (rest acc : List Char), (∀ c ∈ w, c.isWhitespace = false) →
      splitWordsAux (w ++ rest) acc = splitWordsAux rest (w.reverse ++ acc) := by
  induction w with
  | nil => intro rest acc _; simp
  | cons c w ih =>
    intro rest acc hw
    have hc : c.isWhitespace = false := hw c (List.mem_cons_self c w)
    have hw' : ∀ x ∈ w, x.isWhitespace = false := fun x hx => hw x (List.mem_cons_of_mem c hx)
    have hstep : splitWordsAux ((c :: w) ++ rest) acc = splitWordsAux (w ++ rest) (c :: acc) := by
      simp [splitWordsAux, hc]
    rw [hstep, ih rest (c :: acc) hw']
    simp

theorem joinWords_cons (w : List Char) (ws : List (List Char)) (h : ws ≠ []) :
    joinWords (w :: ws) = w ++ ' ' :: joinWords ws := by
  cases ws with
  | nil => exact absurd rfl h
  | cons x ws => rfl

theorem splitWords_joinWords (ws : List (List Char)) :
    (∀ w ∈ ws, GoodWord w) → splitWords (joinWords ws) = ws := by
  induction ws with
  | nil => intro _; rfl
  | cons w ws ih =>
    intro hws
    have hw : GoodWord w := hws w (List.mem_cons_self w ws)
    have hwchars : ∀ c ∈ w, c.isWhitespace = false := hw.2
    cases ws with
    | nil =>
      show splitWordsAux (joinWords [w]) [] = [w]
      have : joinWords [w] = w ++ [] := by simp [joinWords]
      rw [this, splitWordsAux_word w [] [] hwchars]
      simp [splitWordsAux, hw.1]
    | cons x ws' =>
      rw [joinWords_cons w (x :: ws') (by simp)]
      show splitWordsAux (w ++ ' ' :: joinWords (x :: ws')) [] = w :: x :: ws'
      rw [splitWordsAux_word w (' ' :: joinWords (x :: ws')) [] hwchars]
      have hsp : (' ' : Char).isWhitespace = true := by decide
      have hrev : w.reverse ++ [] ≠ [] := by
        simpa using fun h => hw.1 (List.reverse_eq_nil_iff.mp h)
      simp only [splitWordsAux, hsp, if_true, List.append_nil]
      rw [if_neg (by simpa using hrev)]
      have := ih (fun v hv => hws v (List.mem_cons_of_mem w hv))
      simp [splitWords] at this
      simp [this]

theorem splitWordsAux_good (s : List Char) :
    ∀ acc : List Char, (∀ c ∈ acc, c.isWhitespace = false) →
      ∀ w ∈ splitWordsAux s acc, GoodWord w := by
  induction s with
  | nil =>
    intro acc hacc w hw
    by_cases h : acc = []
    · simp [splitWordsAux, h] at hw
    · simp [splitWordsAux, h] at hw
      subst hw
      exact ⟨by simpa using fun hc => h (List.reverse_eq_nil_iff.mp hc),
             fun c hc => hacc c (by simpa using hc)⟩
  | cons c cs ih =>
    intro acc hacc w hw
    by_cases hc : c.isWhitespace
    · by_cases h : acc = []
      · simp [splitWordsAux, hc, h] at hw
        exact ih [] (by simp) w hw
      · simp [splitWordsAux, hc, h] at hw
        rcases hw with hw | hw
        · subst hw
          exact ⟨by simpa using fun h2 => h (List.reverse_eq_nil_iff.mp h2),
                 fun x hx => hacc x (by simpa using hx)⟩
        · exact ih [] (by simp) w hw
    · simp only [splitWordsAux, hc, Bool.false_eq_true, if_false] at hw
      refine ih (c :: acc) ?_ w hw
      intro x hx
      rcases List.mem_cons.mp hx with rfl | hx
      · simpa using hc
      · exact hacc x hx

theorem splitWords_good (s : List Char) : ∀ w ∈ splitWords s, GoodWord w :=
  splitWordsAux_good s [] (by simp)

/-! ### Character-level corruption lemmas -/

theorem getD_mem_or {α : Type} (l : List α) (d : α) (i : Nat) :
    l.getD i d ∈ l ∨ l.getD i d = d := by
  by_cases h : i < l.length
  · exact Or.inl (getD_mem l d i h)
  · exact Or.inr (getD_out l d i (le_of_not_lt h))

theorem lowercase_not_space : ∀ c ∈ lowercaseLetters, c.isWhitespace = false := by
  decide

theorem letterPick_not_space (k : Nat) :
    (lowercaseLetters.getD k 'a').isWhitespace = false := by
  rcases getD_mem_or lowercaseLetters 'a' k with h | h
  · exact lowercase_not_space _ h
  · rw [h]; decide

theorem swapChars_chars (g : CorruptRng) (w : List Char)
    (hw : ∀ c ∈ w, c.isWhitespace = false) :
    ∀ c ∈ swapChars g w, c.isWhitespace = false := by
  intro c hc
  unfold swapChars at hc
  by_cases h2 : w.length < 2
  · exact hw c (by simpa [h2] using hc)
  · simp only [h2, if_false] at hc
    rcases List.mem_or_eq_of_mem_set hc with hc | hc
    · rcases List.mem_or_eq_of_mem_set hc with hc | hc
      · exact hw c hc
      · rcases getD_mem_or w 'a' _ with h | h
        · exact hw c (hc ▸ h)
        · rw [hc, h]; decide
    · rcases getD_mem_or w 'a' _ with h | h
      · exact hw c (hc ▸ h)
      · rw [hc, h]; decide

theorem deleteChar_chars (g : CorruptRng) (w : List Char)
    (hw : ∀ c ∈ w, c.isWhitespace = false) :
    ∀ c ∈ deleteChar g w, c.isWhitespace = false := by
  intro c hc
  unfold deleteChar at hc
  by_cases h2 : w.length < 2
  · exact hw c (by simpa [h2] using hc)
  · simp only [h2, if_false] at hc
    rcases List.mem_append.mp hc with hc | hc
    · exact hw c (List.mem_of_mem_take hc)
    · exact hw c (List.mem_of_mem_drop hc)

theorem insertChar_chars (g : CorruptRng) (w : List Char)
    (hw : ∀ c ∈ w, c.isWhitespace = false) :
    ∀ c ∈ insertChar g w, c.isWhitespace = false := by
  intro c hc
  unfold insertChar at hc
  rcases List.mem_append.mp hc with hc | hc
  · exact hw c (List.mem_of_mem_take hc)
  · rcases List.mem_cons.mp hc with hc | hc
    · rw [hc]; exact letterPick_not_space _
    · exact hw c (List.mem_of_mem_drop hc)

theorem replaceChar_chars (g : CorruptRng) (w : List Char)
    (hw : ∀ c ∈ w, c.isWhitespace = false) :
    ∀ c ∈ replaceChar g w, c.isWhitespace = false := by
  intro c hc
  unfold replaceChar at hc
  rcases List.mem_append.mp hc with hc | hc
  · exact hw c (List.mem_of_mem_take hc)
  · rcases List.mem_cons.mp hc with hc | hc
    · rw [hc]; exact letterPick_not_space _
    · exact hw c (List.mem_of_mem_drop hc)

theorem corruptCore_chars (g : CorruptRng) (w : List Char)
    (hw : ∀ c ∈ w, c.isWhitespace = false) :
    ∀ c ∈ corruptCore g w, c.isWhitespace = false := by
  intro c hc
  unfold corruptCore at hc
  split at hc
  · exact swapChars_chars g w hw c hc
  · exact deleteChar_chars g w hw c hc
  · exact insertChar_chars g w hw c hc
  · exact replaceChar_chars g w hw c hc

theorem swapChars_length (g : CorruptRng) (w : List Char) :
    (swapChars g w).length = w.length := by
  unfold swapChars
  by_cases h2 : w.length < 2
  · simp [h2]
  · simp [h2, List.length_set]

theorem deleteChar_length (g : CorruptRng) (w : List Char) (h2 : 2 ≤ w.length) :
    (deleteChar g w).length = w.length - 1 := by
  unfold deleteChar
  have hpos : 0 < w.length := by omega
  have hlt : g.posPick % w.length < w.length := Nat.mod_lt _ hpos
  simp only [if_neg (by omega : ¬ w.length < 2)]
  simp [List.length_take, List.length_drop]
  omega

theorem insertChar_length (g : CorruptRng) (w : List Char) :
    (insertChar g w).length = w.length + 1 := by
  unfold insertChar
  have hlt : g.posPick % (w.length + 1) < w.length + 1 := Nat.mod_lt _ (by omega)
  simp [List.length_take, List.length_drop]
  omega

theorem replaceChar_length (g : CorruptRng) (w : List Char) (h1 : 1 ≤ w.length) :
    (replaceChar g w).length = w.length := by
  unfold replaceChar
  have hlt : g.posPick % w.length < w.length := Nat.mod_lt _ (by omega)
  simp [List.length_take, List.length_drop]
  omega

theorem corruptCore_ne_nil (g : CorruptRng) (w : List Char) (h2 : 2 ≤ w.length) :
    corruptCore g w ≠ [] := by
  have : 1 ≤ (corruptCore g w).length := by
    unfold corruptCore
    split
    · rw [swapChars_length]; omega
    · rw [deleteChar_length g w h2]; omega
    · rw [insertChar_length]; omega
    · rw [replaceChar_length g w (by omega)]; omega
  intro h
  rw [h] at this
  simp at this

theorem dropLast_append_drop (l : List Char) :
    l.dropLast ++ l.drop (l.length - 1) = l := by
  rw [List.dropLast_eq_take]
  exact List.take_append_drop (l.length - 1) l

theorem corruptWord_short (g : CorruptRng) (w : List Char)
    (h : strippedLen w < 3) : corruptWord g w = w := by
  unfold corruptWord
  by_cases h3 : w.length < 3
  · simp [h3]
  · have hne : w ≠ [] := by
      intro hnil
      rw [hnil] at h3
      simp at h3
    by_cases hp : punctChars.contains (w.getLastD 'a')
    · have hdl : w.dropLast.length < 3 := by
        rw [List.length_dropLast]
        unfold strippedLen at h
        rw [if_neg hne, if_pos hp] at h
        exact h
      simp only [h3, if_false, hp, if_true, hdl]
      exact dropLast_append_drop w
    · exfalso
      unfold strippedLen at h
      rw [if_neg hne, if_neg hp] at h
      omega

theorem corruptWord_good (g : CorruptRng) (w : List Char) (hw : GoodWord w) :
    GoodWord (corruptWord g w) := by
  unfold corruptWord
  by_cases h3 : w.length < 3
  · simpa [h3] using hw
  · simp only [h3, if_false]
    by_cases hp : punctChars.contains (w.getLastD 'a')
    · simp only [hp, if_true]
      by_cases hdl : w.dropLast.length < 3
      · simp only [hdl, if_true]
        rw [dropLast_append_drop w]
        exact hw
      · simp only [hdl, if_false]
        constructor
        · intro hnil
          rcases List.append_eq_nil.mp hnil with ⟨hcore, _⟩
          exact corruptCore_ne_nil g w.dropLast (by omega) hcore
        · intro c hc
          rcases List.mem_append.mp hc with hc | hc
          · refine corruptCore_chars g w.dropLast ?_ c hc
            intro x hx
            rw [List.dropLast_eq_take] at hx
            exact hw.2 x (List.mem_of_mem_take hx)
          · exact hw.2 c (List.mem_of_mem_drop hc)
    · simp only [hp, if_false]
      constructor
      · exact corruptCore_ne_nil g w (by omega)
      · exact corruptCore_chars g w hw.2

/-! ### countDiff lemmas -/

theorem countDiff_self : ∀ l : List (List Char), countDiff l l = 0 := by
  intro l
  induction l with
  | nil => rfl
  | cons a l ih => simp [countDiff, ih]

theorem countDiff_triangle :
    ∀ (a b c : List (List Char)), a.length = b.length → b.length = c.length →
      countDiff a c ≤ countDiff a b + countDiff b c := by
  intro a
  induction a with
  | nil => intro b c _ _; simp [countDiff]
  | cons x a ih =>
    intro b c hab hbc
    cases b with
    | nil => simp at hab
    | cons y b =>
      cases c with
      | nil => simp at hbc
      | cons z c =>
        simp only [countDiff]
        have hrec := ih b c (by simpa using hab) (by simpa using hbc)
        by_cases hxz : x = z
        · simp only [hxz, ne_eq, not_true_eq_false, if_false]
          omega
        · by_cases hxy : x = y
          · have hyz : y ≠ z := fun h => hxz (hxy.trans h)
            simp only [ne_eq, hxz, not_false_eq_true, if_true, hyz]
            omega
          · simp only [ne_eq, hxz, not_false_eq_true, if_true, hxy]
            omega

theorem countDiff_set (l : List (List Char)) (v : List Char) :
    ∀ i : Nat, countDiff l (l.set i v) ≤ 1 := by
  induction l with
  | nil => intro i; simp [countDiff]
  | cons a l ih =>
    intro i
    cases i with
    | zero =>
      simp only [List.set, countDiff, countDiff_self]
      split <;> omega
    | succ i =>
      simp only [List.set, countDiff, ne_eq, not_true_eq_false, if_false]
      simpa using ih i

/-! ### applyStep / foldl lemmas -/

theorem applyStep_length (rngs : Nat → CorruptRng) (ws : List (List Char)) (i : Nat) :
    (applyStep rngs ws i).length = ws.length := by
  simp [applyStep, List.length_set]

theorem foldl_applyStep_length (rngs : Nat → CorruptRng) :
    ∀ (idxs : List Nat) (ws : List (List Char)),
      (idxs.foldl (applyStep rngs) ws).length = ws.length := by
  intro idxs
  induction idxs with
  | nil => intro ws; rfl
  | cons i idxs ih =>
    intro ws
    simp only [List.foldl_cons]
    rw [ih (applyStep rngs ws i), applyStep_length]

theorem applyStep_good (rngs : Nat → CorruptRng) (ws : List (List Char)) (i : Nat)
    (hws : ∀ w ∈ ws, GoodWord w) : ∀ w ∈ applyStep rngs ws i, GoodWord w := by
  intro w hw
  by_cases hi : i < ws.length
  · rcases List.mem_or_eq_of_mem_set hw with hw | hw
    · exact hws w hw
    · rw [hw]
      exact corruptWord_good _ _ (hws _ (getD_mem ws [] i hi))
  · rw [applyStep, List.set_eq_of_length_le (le_of_not_lt hi)] at hw
    exact hws w hw

theorem foldl_applyStep_good (rngs : Nat → CorruptRng) :
    ∀ (idxs : List Nat) (ws : List (List Char)),
      (∀ w ∈ ws, GoodWord w) → ∀ w ∈ idxs.foldl (applyStep rngs) ws, GoodWord w := by
  intro idxs
  induction idxs with
  | nil => intro ws hws; exact hws
  | cons i idxs ih =>
    intro ws hws
    simp only [List.foldl_cons]
    exact ih (applyStep rngs ws i) (applyStep_good rngs ws i hws)

theorem applyStep_getD_short (rngs : Nat → CorruptRng) (ws : List (List Char))
    (i j : Nat) (h : strippedLen (ws.getD j []) < 3) :
    (applyStep rngs ws i).getD j [] = ws.getD j [] := by
  by_cases hij : i = j
  · subst hij
    by_cases hi : i < ws.length
    · rw [applyStep, getD_set_self _ _ _ _ hi, corruptWord_short _ _ h]
    · rw [applyStep, List.set_eq_of_length_le (le_of_not_lt hi)]
  · exact getD_set_ne ws _ [] i j hij

theorem foldl_applyStep_getD_short (rngs : Nat → CorruptRng) :
    ∀ (idxs : List Nat) (ws : List (List Char)) (j : Nat),
      strippedLen (ws.getD j []) < 3 →
      (idxs.foldl (applyStep rngs) ws).getD j [] = ws.getD j [] := by
  intro idxs
  induction idxs with
  | nil => intro ws j _; rfl
  | cons i idxs ih =>
    intro ws j h
    simp only [List.foldl_cons]
    have hstep := applyStep_getD_short rngs ws i j h
    rw [ih (applyStep rngs ws i) j (by rw [hstep]; exact h), hstep]

theorem foldl_applyStep_countDiff (rngs : Nat → CorruptRng) :
    ∀ (idxs : List Nat) (ws : List (List Char)),
      countDiff ws (idxs.foldl (applyStep rngs) ws) ≤ idxs.length := by
  intro idxs
  induction idxs with
  | nil => intro ws; simp [countDiff_self]
  | cons i idxs ih =>
    intro ws
    simp only [List.foldl_cons, List.length_cons]
    have htri := countDiff_triangle ws (applyStep rngs ws i)
      (idxs.foldl (applyStep rngs) (applyStep rngs ws i))
      (applyStep_length rngs ws i).symm
      (foldl_applyStep_length rngs idxs (applyStep rngs ws i)).symm
    have h1 : countDiff ws (applyStep rngs ws i) ≤ 1 := countDiff_set ws _ i
    have h2 := ih (applyStep rngs ws i)
    omega

/-- The word list underlying the corrupted text returned by `inject_errors`:
splitting the rejoined text recovers exactly the corrupted word list. -/
theorem inject_words (sample : Nat → Nat → List Nat) (rngs : Nat → CorruptRng)
    (text : List Char) (errorRate : ℚ) :
    splitWords (injectErrors sample rngs text errorRate).1
      = (errorIndicesOf sample (splitWords text).length errorRate).foldl
          (applyStep rngs) (splitWords text) := by
  apply splitWords_joinWords
  exact foldl_applyStep_good rngs _ _ (splitWords_good text)

/-! ### Arithmetic helpers -/

theorem ratTrunc_nonneg_eq_floor (q : ℚ) (h : 0 ≤ q) : ratTrunc q = ⌊q⌋ := if_pos h

theorem numErrorsOf_zero (n : Nat) : numErrorsOf n 0 = 1 := by
  simp [numErrorsOf, ratTrunc]

theorem pyRound_natCast (n : Nat) : pyRound ((n : Int) : ℚ) = (n : Int) := by
  unfold pyRound
  rw [Int.floor_intCast]
  norm_num

theorem getD_map {α β : Type} (f : α → β) (d : α) (d' : β) :
    ∀ (l : List α) (i : Nat), i < l.length → (l.map f).getD i d' = f (l.getD i d) := by
  intro l
  induction l with
  | nil => intro i h; simp at h
  | cons a l ih =>
    intro i h
    cases i with
    | zero => rfl
    | succ i => simpa using ih i (by simpa using h)

/-! ### C1 / C2 / C8: inject_errors -/

/-- C1.  For every whitespace-tokenized text of `N ≥ 1` words and every
error rate in `[0, 1]`, and for every behaviour of `random.sample` meeting
its contract, `inject_errors` reports exactly `max(1, floor(N * R))`
corrupted words (which for `R ≤ 1` never exceeds `N`, so the clamp to `N`
is vacuous). -/
theorem inject_errors_reported_count (sample : Nat → Nat → List Nat)
    (rngs : Nat → CorruptRng) (text : List Char) (errorRate : ℚ)
    (hN : 1 ≤ (splitWords text).length)
    (h0 : 0 ≤ errorRate) (h1 : errorRate ≤ 1)
    (hs : SampleOk
        (sample (splitWords text).length
          (numErrorsOf (splitWords text).length errorRate).toNat)
        (splitWords text).length
        (numErrorsOf (splitWords text).length errorRate).toNat) :
    ((injectErrors sample rngs text errorRate).2 : Int)
      = max 1 ⌊((splitWords text).length : ℚ) * errorRate⌋ := by
  have hsnd : (injectErrors sample rngs text errorRate).2
      = (errorIndicesOf sample (splitWords text).length errorRate).length := rfl
  set N := (splitWords text).length with hNdef
  have hprod : (0 : ℚ) ≤ (N : ℚ) * errorRate :=
    mul_nonneg (Nat.cast_nonneg N) h0
  have htr : ratTrunc ((N : ℚ) * errorRate) = ⌊(N : ℚ) * errorRate⌋ :=
    ratTrunc_nonneg_eq_floor _ hprod
  have hnum : numErrorsOf N errorRate = max 1 ⌊(N : ℚ) * errorRate⌋ := by
    rw [numErrorsOf, htr]
  have hfle : ⌊(N : ℚ) * errorRate⌋ ≤ (N : Int) := by
    have hq : (N : ℚ) * errorRate ≤ (N : ℚ) :=
      mul_le_of_le_one_right (Nat.cast_nonneg N) h1
    calc ⌊(N : ℚ) * errorRate⌋ ≤ ⌊(N : ℚ)⌋ := Int.floor_le_floor hq
      _ = (N : Int) := Int.floor_natCast N
  have hnumle : numErrorsOf N errorRate ≤ (N : Int) := by
    rw [hnum]
    exact max_le (by exact_mod_cast hN) hfle
  have hnumpos : 1 ≤ numErrorsOf N errorRate := le_max_left _ _
  rw [hsnd]
  unfold errorIndicesOf
  by_cases hc : (N : Int) ≤ numErrorsOf N errorRate
  · rw [if_pos hc]
    have heq : numErrorsOf N errorRate = (N : Int) := le_antisymm hnumle hc
    rw [List.length_range, ← hnum, heq]
  · rw [if_neg hc]
    rw [hs.1]
    rw [Int.toNat_of_nonneg (by omega), hnum]

/-- C1 witness: a concrete three-word text at rate `0`. -/
theorem inject_errors_reported_count_witness :
    (1 ≤ (splitWords "aa bb cc".data).length
      ∧ (0 : ℚ) ≤ 0 ∧ (0 : ℚ) ≤ 1
      ∧ SampleOk
          (witSample (splitWords "aa bb cc".data).length
            (numErrorsOf (splitWords "aa bb cc".data).length 0).toNat)
          (splitWords "aa bb cc".data).length
          (numErrorsOf (splitWords "aa bb cc".data).length 0).toNat)
    ∧ ((injectErrors witSample (fun _ => witRng) "aa bb cc".data 0).2 : Int)
        = max 1 ⌊((splitWords "aa bb cc".data).length : ℚ) * 0⌋ :=
  ⟨⟨by decide, le_refl 0, zero_le_one,
    by rw [numErrorsOf_zero]; decide⟩,
   inject_errors_reported_count witSample (fun _ => witRng) "aa bb cc".data 0
     (by decide) (le_refl 0) zero_le_one
     (by rw [numErrorsOf_zero]; decide)⟩

/-- C2.  For every non-empty whitespace-tokenized text and every error rate
in `[0, 1]`, and for every random behaviour, the corrupted text returned by
`inject_errors` has exactly the same word count as the input. -/
theorem inject_errors_preserves_word_count (sample : Nat → Nat → List Nat)
    (rngs : Nat → CorruptRng) (text : List Char) (errorRate : ℚ)
    (_hne : splitWords text ≠ []) (_h0 : 0 ≤ errorRate) (_h1 : errorRate ≤ 1) :
    (splitWords (injectErrors sample rngs text errorRate).1).length
      = (splitWords text).length := by
  rw [inject_words]
  exact foldl_applyStep_length rngs _ _

/-- C2 witness: a concrete two-word text at rate `0`. -/
theorem inject_errors_preserves_word_count_witness :
    (splitWords "hello world".data ≠ [] ∧ (0 : ℚ) ≤ 0 ∧ (0 : ℚ) ≤ 1)
    ∧ (splitWords (injectErrors witSample (fun _ => witRng) "hello world".data 0).1).length
        = (splitWords "hello world".data).length :=
  ⟨⟨by decide, le_refl 0, zero_le_one⟩,
   inject_errors_preserves_word_count witSample (fun _ => witRng) "hello world".data 0
     (by decide) (le_refl 0) zero_le_one⟩

/-- C8.  A word whose length after stripping a single trailing punctuation
character is under 3 characters is returned unchanged at its position by
`inject_errors`, for every random behaviour (in particular even when its
index was selected for corruption). -/
theorem inject_errors_short_word_unchanged (sample : Nat → Nat → List Nat)
    (rngs : Nat → CorruptRng) (text : List Char) (errorRate : ℚ) (i : Nat)
    (h : strippedLen ((splitWords text).getD i []) < 3) :
    (splitWords (injectErrors sample rngs text errorRate).1).getD i []
      = (splitWords text).getD i [] := by
  rw [inject_words]
  exact foldl_applyStep_getD_short rngs _ _ i h

/-- C8 witness: the first word of `"ab. cdef"` strips to the two-character
token `"ab"`, and rate `1` selects every index. -/
theorem inject_errors_short_word_unchanged_witness :
    strippedLen ((splitWords "ab. cdef".data).getD 0 []) < 3
    ∧ (splitWords (injectErrors witSample (fun _ => witRng) "ab. cdef".data 1).1).getD 0 []
        = (splitWords "ab. cdef".data).getD 0 [] :=
  ⟨by decide,
   inject_errors_short_word_unchanged witSample (fun _ => witRng) "ab. cdef".data 1 0
     (by decide)⟩

/-! ### C9: calculate_actual_error_rate -/

theorem countDiff_nil_left : ∀ x : List (List Char), countDiff [] x = 0 := by
  intro x
  cases x <;> rfl

/-- C9.  On texts with equal word counts `calculate_actual_error_rate`
returns the fraction of differing word positions (hence `0` on `(X, X)` for
any `X`), and on texts with differing word counts it returns
`min(len1, len2) / max(len1, len2)` instead of failing. -/
theorem calculate_actual_error_rate_spec (a b : List Char) :
    ((splitWords a).length = (splitWords b).length →
      calculateActualErrorRate a b
        = (countDiff (splitWords a) (splitWords b) : ℚ) / ((splitWords a).length : ℚ))
    ∧ calculateActualErrorRate a a = 0
    ∧ ((splitWords a).length ≠ (splitWords b).length →
      calculateActualErrorRate a b
        = ((min (splitWords a).length (splitWords b).length : Nat) : ℚ)
          / ((max (splitWords a).length (splitWords b).length : Nat) : ℚ)) := by
  refine ⟨?_, ?_, ?_⟩
  · intro heq
    unfold calculateActualErrorRate
    rw [if_neg (fun h => h heq)]
    by_cases hne : splitWords a ≠ []
    · rw [if_pos hne]
    · rw [if_neg hne]
      push_neg at hne
      rw [hne, countDiff_nil_left]
      simp
  · unfold calculateActualErrorRate
    rw [if_neg (fun h => h rfl)]
    by_cases hne : splitWords a ≠ []
    · rw [if_pos hne, countDiff_self]
      simp
    · rw [if_neg hne]
  · intro hneq
    unfold calculateActualErrorRate
    rw [if_pos hneq]
    simp [Nat.cast_min, Nat.cast_max]

/-- C9 witness: equal word counts on `"x yy"` vs `"x zz"`, the reflexive
case, and the length-mismatch fallback against `"x"`. -/
theorem calculate_actual_error_rate_spec_witness :
    ((splitWords "x yy".data).length = (splitWords "x zz".data).length
      ∧ calculateActualErrorRate "x yy".data "x zz".data
          = (countDiff (splitWords "x yy".data) (splitWords "x zz".data) : ℚ)
            / ((splitWords "x yy".data).length : ℚ))
    ∧ calculateActualErrorRate "x yy".data "x yy".data = 0
    ∧ ((splitWords "x yy".data).length ≠ (splitWords "x".data).length
      ∧ calculateActualErrorRate "x yy".data "x".data
          = ((min (splitWords "x yy".data).length (splitWords "x".data).length : Nat) : ℚ)
            / ((max (splitWords "x yy".data).length (splitWords "x".data).length : Nat) : ℚ)) :=
  ⟨⟨by decide,
    (calculate_actual_error_rate_spec "x yy".data "x zz".data).1 (by decide)⟩,
   (calculate_actual_error_rate_spec "x yy".data "x yy".data).2.1,
   ⟨by decide,
    (calculate_actual_error_rate_spec "x yy".data "x".data).2.2 (by decide)⟩⟩

/-! ### C3: the generator's num_errors invariant -/

/-- C3 (amended).  For every test case produced by `generate_test_cases`,
under any random behaviour, `round(actual_error_rate * word_count)` — the
number of words that actually changed — is at most the stored `num_errors`
(the number of words selected for corruption).  Equality can fail because a
selected word may come through unchanged. -/
theorem generated_num_errors_bounds_round (sample : Nat → Nat → Nat → List Nat)
    (rngs : Nat → Nat → CorruptRng) (sentences : List (List Char))
    (errorRates : List ℚ) :
    ∀ tc ∈ generateTestCases sample rngs sentences errorRates,
      pyRound (tc.actualErrorRate * (tc.wordCount : ℚ)) ≤ (tc.numErrors : Int) := by
  intro tc htc
  unfold generateTestCases at htc
  obtain ⟨p, _hp, rfl⟩ := List.mem_map.mp htc
  dsimp only
  have hwords : splitWords (injectErrors (sample p.1) (rngs p.1) p.2.1 p.2.2).1
      = (errorIndicesOf (sample p.1) (splitWords p.2.1).length p.2.2).foldl
          (applyStep (rngs p.1)) (splitWords p.2.1) :=
    inject_words (sample p.1) (rngs p.1) p.2.1 p.2.2
  have hlen : (splitWords (injectErrors (sample p.1) (rngs p.1) p.2.1 p.2.2).1).length
      = (splitWords p.2.1).length := by
    rw [hwords]
    exact foldl_applyStep_length (rngs p.1) _ _
  have hsnd : (injectErrors (sample p.1) (rngs p.1) p.2.1 p.2.2).2
      = (errorIndicesOf (sample p.1) (splitWords p.2.1).length p.2.2).length := rfl
  by_cases hne : splitWords p.2.1 ≠ []
  · have hrate : calculateActualErrorRate p.2.1 (injectErrors (sample p.1) (rngs p.1) p.2.1 p.2.2).1
        = (countDiff (splitWords p.2.1)
            (splitWords (injectErrors (sample p.1) (rngs p.1) p.2.1 p.2.2).1) : ℚ)
          / ((splitWords p.2.1).length : ℚ) := by
      unfold calculateActualErrorRate
      rw [if_neg (by rw [hlen]; exact fun h => h rfl), if_pos hne]
    rw [hrate]
    have hNq : ((splitWords p.2.1).length : ℚ) ≠ 0 := by
      have hN : (splitWords p.2.1).length ≠ 0 :=
        fun h => hne (List.length_eq_zero.mp h)
      exact_mod_cast hN
    rw [div_mul_cancel₀ _ hNq]
    have hcast : ((countDiff (splitWords p.2.1)
          (splitWords (injectErrors (sample p.1) (rngs p.1) p.2.1 p.2.2).1) : Nat) : ℚ)
        = (((countDiff (splitWords p.2.1)
            (splitWords (injectErrors (sample p.1) (rngs p.1) p.2.1 p.2.2).1) : Nat) : Int) : ℚ) := by
      push_cast
      ring
    rw [hcast, pyRound_natCast, hsnd]
    have hbound : countDiff (splitWords p.2.1)
          (splitWords (injectErrors (sample p.1) (rngs p.1) p.2.1 p.2.2).1)
        ≤ (errorIndicesOf (sample p.1) (splitWords p.2.1).length p.2.2).length := by
      rw [hwords]
      exact foldl_applyStep_countDiff (rngs p.1) _ _
    exact_mod_cast hbound
  · push_neg at hne
    have hrate : calculateActualErrorRate p.2.1 (injectErrors (sample p.1) (rngs p.1) p.2.1 p.2.2).1
        = 0 := by
      unfold calculateActualErrorRate
      rw [if_neg (by rw [hlen]; exact fun h => h rfl), if_neg (by simpa using hne)]
    rw [hrate, zero_mul]
    have h0 : pyRound 0 = 0 := by
      unfold pyRound
      norm_num
    rw [h0]
    exact Int.natCast_nonneg _

/-- Concrete evaluation of the generator on the sentence `"a b"` at rate
`1/2` with the witness randomness: the selected word is left unchanged, so
the measured rate is `0` while `num_errors = 1`. -/
theorem generate_tcShort_eval :
    generateTestCases (fun _ => witSample) (fun _ _ => witRng) [['a', ' ', 'b']] [1 / 2]
      = [tcShort] := by
  have hnum : numErrorsOf 2 (1 / 2) = 1 := by
    unfold numErrorsOf ratTrunc
    norm_num
  have hidx : errorIndicesOf witSample 2 (1 / 2) = [0] := by
    unfold errorIndicesOf
    rw [hnum]
    norm_num [witSample]
    decide
  have hsplit : splitWords ['a', ' ', 'b'] = [['a'], ['b']] := by decide
  have hinj : injectErrors witSample (fun _ => witRng) ['a', ' ', 'b'] (1 / 2)
      = (['a', ' ', 'b'], 1) := by
    unfold injectErrors
    rw [hsplit, show ([['a'], ['b']] : List (List Char)).length = 2 from rfl, hidx]
    rfl
  have hrate0 : calculateActualErrorRate ['a', ' ', 'b'] ['a', ' ', 'b'] = 0 := by
    unfold calculateActualErrorRate
    rw [if_neg (fun h => h rfl), if_pos (by rw [hsplit]; decide), countDiff_self]
    simp
  unfold generateTestCases
  rw [show (([['a', ' ', 'b']].flatMap
        (fun s => ([1 / 2] : List ℚ).map (fun r => (s, r)))).enum)
      = [(0, (['a', ' ', 'b'], (1 / 2 : ℚ)))] from rfl]
  rw [List.map_cons, List.map_nil]
  dsimp only
  rw [hinj, hrate0, hsplit]
  rfl

/-- C3 counterexample: on the concrete input above the stored `num_errors`
is `1` but `round(actual_error_rate * word_count) = 0`, so the claimed
equality is false. -/
theorem generated_num_errors_round_cex :
    ¬ (∀ tc ∈ generateTestCases (fun _ => witSample) (fun _ _ => witRng)
          [['a', ' ', 'b']] [1 / 2],
        (tc.numErrors : Int) = pyRound (tc.actualErrorRate * (tc.wordCount : ℚ))) := by
  intro hall
  rw [generate_tcShort_eval] at hall
  have h := hall tcShort (List.mem_singleton.mpr rfl)
  unfold tcShort at h
  dsimp only at h
  rw [zero_mul] at h
  have h0 : pyRound 0 = 0 := by
    unfold pyRound
    norm_num
  rw [h0] at h
  exact absurd h (by decide)

/-- C3 witness for the amended bound, at the concrete generator run above. -/
theorem generated_num_errors_bounds_round_witness :
    tcShort ∈ generateTestCases (fun _ => witSample) (fun _ _ => witRng)
        [['a', ' ', 'b']] [1 / 2]
    ∧ pyRound (tcShort.actualErrorRate * (tcShort.wordCount : ℚ))
        ≤ (tcShort.numErrors : Int) :=
  ⟨by rw [generate_tcShort_eval]; exact List.mem_singleton.mpr rfl,
   generated_num_errors_bounds_round (fun _ => witSample) (fun _ _ => witRng)
     [['a', ' ', 'b']] [1 / 2] tcShort
     (by rw [generate_tcShort_eval]; exact List.mem_singleton.mpr rfl)⟩

/-! ### C7: loading base sentences -/

/-- C7 counterexample: an existing but empty base-sentence source does not
make construction fail — `_load_base_sentences` returns an empty list and
`__init__` raises nothing. -/
theorem load_base_sentences_empty_no_error :
    exceptBad (loadBaseSentences (some [])) = false := rfl

/-- C7 (amended).  Construction fails (a `FileNotFoundError` propagates out
of `__init__`) if the base-sentence source is missing; a source that exists
but contains no usable sentences succeeds with an empty sentence list. -/
theorem load_base_sentences_spec (lines : List (List Char))
    (h : ∀ l ∈ lines, parseLine l = none) :
    exceptBad (loadBaseSentences none) = true
    ∧ loadBaseSentences (some lines) = Except.ok [] := by
  refine ⟨rfl, ?_⟩
  unfold loadBaseSentences
  dsimp only
  rw [List.filterMap_eq_nil_iff.mpr h]

/-- C7 witness: a comment line and a blank line parse to nothing. -/
theorem load_base_sentences_spec_witness :
    (∀ l ∈ [("# note".data : List Char), "  ".data], parseLine l = none)
    ∧ exceptBad (loadBaseSentences none) = true
    ∧ loadBaseSentences (some ["# note".data, "  ".data]) = Except.ok [] :=
  ⟨by decide,
   (load_base_sentences_spec ["# note".data, "  ".data] (by decide)).1,
   (load_base_sentences_spec ["# note".data, "  ".data] (by decide)).2⟩

/-! ### Retry-loop lemmas for _call_agent -/

theorem callAgentGo_cons_ok (outcome : Nat → Except String String) (agent : String)
    (m attempt : Nat) (rest : List Nat) (t : String) (h : outcome attempt = Except.ok t) :
    callAgentGo outcome agent m (attempt :: rest) = (Except.ok t, 1, []) := by
  simp [callAgentGo, h]

theorem callAgentGo_cons_error_last (outcome : Nat → Except String String) (agent : String)
    (m attempt : Nat) (rest : List Nat) (e : String)
    (h : outcome attempt = Except.error e) (hl : attempt = m - 1) :
    callAgentGo outcome agent m (attempt :: rest)
      = (Except.error ("Agent " ++ agent ++ " failed after " ++ toString m
          ++ " attempts: " ++ e), 1, []) := by
  subst hl
  simp [callAgentGo, h]

theorem callAgentGo_cons_error_mid (outcome : Nat → Except String String) (agent : String)
    (m attempt : Nat) (rest : List Nat) (e : String)
    (h : outcome attempt = Except.error e) (hl : attempt ≠ m - 1) :
    callAgentGo outcome agent m (attempt :: rest)
      = ((callAgentGo outcome agent m rest).1,
         (callAgentGo outcome agent m rest).2.1 + 1,
         2 ^ attempt :: (callAgentGo outcome agent m rest).2.2) := by
  simp [callAgentGo, h, hl]

theorem callAgentGo_spec (outcome : Nat → Except String String) (agent : String)
    (maxRetries : Nat) :
    ∀ n s : Nat, s + n = maxRetries →
      ((callAgentGo outcome agent maxRetries (List.range' s n)).2.1 ≤ n)
      ∧ ((callAgentGo outcome agent maxRetries (List.range' s n)).2.2
          = (List.range' s
              (callAgentGo outcome agent maxRetries (List.range' s n)).2.2.length).map
              (fun a => 2 ^ a))
      ∧ (1 ≤ n → (∀ a, s ≤ a → a < maxRetries → exceptBad (outcome a) = true) →
          (callAgentGo outcome agent maxRetries (List.range' s n)).1
            = Except.error ("Agent " ++ agent ++ " failed after " ++ toString maxRetries
                ++ " attempts: " ++ errOf (outcome (maxRetries - 1)))
          ∧ (callAgentGo outcome agent maxRetries (List.range' s n)).2.1 = n) := by
  intro n
  induction n with
  | zero =>
    intro s _
    refine ⟨Nat.le_refl 0, rfl, ?_⟩
    intro h1 _
    omega
  | succ n ih =>
    intro s hs
    rw [List.range'_succ]
    cases ho : outcome s with
    | ok t =>
      rw [callAgentGo_cons_ok outcome agent maxRetries s _ t ho]
      refine ⟨by dsimp only; omega, rfl, ?_⟩
      intro _ hfail
      have hbad := hfail s (Nat.le_refl s) (by omega)
      rw [ho] at hbad
      simp [exceptBad] at hbad
    | error e =>
      by_cases hlast : s = maxRetries - 1
      · have hn0 : n = 0 := by omega
        subst hn0
        rw [callAgentGo_cons_error_last outcome agent maxRetries s _ e ho hlast]
        refine ⟨by dsimp only; omega, rfl, ?_⟩
        intro _ _
        refine ⟨?_, rfl⟩
        rw [← hlast, ho]
        rfl
      · have hn1 : 1 ≤ n := by omega
        rw [callAgentGo_cons_error_mid outcome agent maxRetries s _ e ho hlast]
        obtain ⟨ih1, ih2, ih3⟩ := ih (s + 1) (by omega)
        refine ⟨by dsimp only; omega, ?_, ?_⟩
        · dsimp only
          rw [List.length_cons, List.range'_succ, List.map_cons, ← ih2]
        · intro _ hfail
          obtain ⟨ihres, ihcnt⟩ := ih3 hn1 (fun a ha hb => hfail a (by omega) hb)
          exact ⟨ihres, by dsimp only; omega⟩

theorem chain_lt_pow_range (k : Nat) :
    List.Chain' (· < ·) ((List.range k).map (fun a => 2 ^ a)) := by
  apply List.Pairwise.chain'
  rw [List.pairwise_map]
  apply List.Pairwise.imp ?_ (List.pairwise_lt_range k)
  intro a b hab
  exact Nat.pow_lt_pow_right (by omega) hab

/-! ### C5: retry with backoff -/

/-- C5.  A `_call_agent` run issues at most `max_retries` external calls;
its backoff sleeps are exactly `2 ^ attempt` for the consecutive attempts
starting at 0 (hence strictly increasing); and when every attempt fails and
`max_retries ≥ 1`, it raises an error naming the agent and the number of
attempts, after exactly `max_retries` calls. -/
theorem call_agent_retry_spec (outcome : Nat → Except String String) (agent : String)
    (maxRetries : Nat) :
    ((callAgent outcome agent maxRetries).2.1 ≤ maxRetries)
    ∧ ((callAgent outcome agent maxRetries).2.2
        = (List.range (callAgent outcome agent maxRetries).2.2.length).map (fun a => 2 ^ a))
    ∧ List.Chain' (· < ·) (callAgent outcome agent maxRetries).2.2
    ∧ (1 ≤ maxRetries → (∀ a, a < maxRetries → exceptBad (outcome a) = true) →
        (callAgent outcome agent maxRetries).1
          = Except.error ("Agent " ++ agent ++ " failed after " ++ toString maxRetries
              ++ " attempts: " ++ errOf (outcome (maxRetries - 1)))
        ∧ (callAgent outcome agent maxRetries).2.1 = maxRetries) := by
  have h := callAgentGo_spec outcome agent maxRetries maxRetries 0 (by omega)
  have hcall : callAgent outcome agent maxRetries
      = callAgentGo outcome agent maxRetries (List.range' 0 maxRetries) := by
    unfold callAgent
    rw [List.range_eq_range']
  refine ⟨?_, ?_, ?_, ?_⟩
  · rw [hcall]; exact h.1
  · rw [hcall, List.range_eq_range']; exact h.2.1
  · rw [hcall, h.2.1, ← List.range_eq_range']
    exact chain_lt_pow_range _
  · intro h1 hfail
    rw [hcall]
    exact h.2.2 h1 (fun a _ hb => hfail a hb)

/-- C5 witness: three attempts that all fail. -/
theorem call_agent_retry_spec_witness :
    (1 ≤ 3 ∧ (∀ a, a < 3 → exceptBad (witFailOracle a) = true))
    ∧ (callAgent witFailOracle "agent1" 3).1
        = Except.error ("Agent " ++ "agent1" ++ " failed after " ++ toString 3
            ++ " attempts: " ++ errOf (witFailOracle 2))
    ∧ (callAgent witFailOracle "agent1" 3).2.1 = 3 :=
  ⟨⟨by decide, fun a _ => rfl⟩,
   ((call_agent_retry_spec witFailOracle "agent1" 3).2.2.2 (by decide) (fun a _ => rfl)).1,
   ((call_agent_retry_spec witFailOracle "agent1" 3).2.2.2 (by decide) (fun a _ => rfl)).2⟩

/-! ### C4: process propagates a stage failure -/

/-- C4.  When the first stage exhausts its retry budget, `process` does not
return a failure record: the stage error propagates to the caller of
`process` (the `try/except` that converts it into a `success := false`
record lives in `process_batch`, not in `process`).  This evaluates the
model at the concrete failing input of `tests/test_pipeline.py
test_error_handling`. -/
theorem process_propagates_stage_failure :
    processPipe (fun _ _ _ => Except.error "Persistent API Error") 3 "Test text" 1
      = Except.error ("Agent " ++ "agent1" ++ " failed after " ++ toString 3
          ++ " attempts: " ++ "Persistent API Error") := rfl

/-! ### C6: batch processing -/

theorem processPipe_ok_fields (oracle : String → String → Nat → Except String String)
    (maxRetries : Nat) (input : String) (testId : Nat) (r : ProcResult)
    (h : processPipe oracle maxRetries input testId = Except.ok r) :
    r.testId = testId ∧ r.success = true := by
  unfold processPipe at h
  cases h1 : (callAgent (oracle "agent1" input) "agent1" maxRetries).1 with
  | error e => rw [h1] at h; simp at h
  | ok french =>
    rw [h1] at h
    dsimp only at h
    cases h2 : (callAgent (oracle "agent2" french) "agent2" maxRetries).1 with
    | error e => rw [h2] at h; simp at h
    | ok hebrew =>
      rw [h2] at h
      dsimp only at h
      cases h3 : (callAgent (oracle "agent3" hebrew) "agent3" maxRetries).1 with
      | error e => rw [h3] at h; simp at h
      | ok finalEnglish =>
        rw [h3] at h
        dsimp only at h
        injection h with h
        subst h
        exact ⟨rfl, rfl⟩

/-- C6.  `process_batch` on `N` test cases returns exactly `N` result
records, in input order (the `i`-th record carries the `i`-th test case's
id), and the `i`-th record's success flag is false exactly when that item's
`process` call failed — a per-item failure is captured in that item's
record instead of aborting the rest. -/
theorem process_batch_spec (oracle : String → String → Nat → Except String String)
    (maxRetries : Nat) (testCases : List TestCase) :
    (processBatch oracle maxRetries testCases).length = testCases.length
    ∧ ∀ i : Nat, i < testCases.length →
        ((processBatch oracle maxRetries testCases).getD i defaultBatchResult).testId
            = (testCases.getD i defaultTestCase).id
        ∧ (((processBatch oracle maxRetries testCases).getD i defaultBatchResult).success
              = false
            ↔ exceptBad (processPipe oracle maxRetries
                (String.mk (testCases.getD i defaultTestCase).corrupted)
                (testCases.getD i defaultTestCase).id) = true) := by
  constructor
  · exact List.length_map testCases _
  · intro i hi
    unfold processBatch
    rw [getD_map _ defaultTestCase defaultBatchResult testCases i hi]
    cases hres : processPipe oracle maxRetries
        (String.mk (testCases.getD i defaultTestCase).corrupted)
        (testCases.getD i defaultTestCase).id with
    | error e =>
      dsimp only
      refine ⟨rfl, ?_⟩
      simp [exceptBad]
    | ok r =>
      obtain ⟨hid, hsucc⟩ := processPipe_ok_fields oracle maxRetries _ _ r hres
      dsimp only
      refine ⟨hid, ?_⟩
      rw [hsucc]
      simp [exceptBad]

/-- C6 witness: a single test case whose stage calls all succeed. -/
theorem process_batch_spec_witness :
    0 < ([tcBatch] : List TestCase).length
    ∧ (((processBatch witOkOracle 1 [tcBatch]).getD 0 defaultBatchResult).testId
          = (([tcBatch] : List TestCase).getD 0 defaultTestCase).id
        ∧ (((processBatch witOkOracle 1 [tcBatch]).getD 0 defaultBatchResult).success
              = false
            ↔ exceptBad (processPipe witOkOracle 1
                (String.mk (([tcBatch] : List TestCase).getD 0 defaultTestCase).corrupted)
                (([tcBatch] : List TestCase).getD 0 defaultTestCase).id) = true)) :=
  ⟨by decide, (process_batch_spec witOkOracle 1 [tcBatch]).2 0 (by decide)⟩

/-! ### C10: distance symmetry -/

theorem dotList_comm : ∀ a b : List ℝ, dotList a b = dotList b a := by
  intro a
  induction a with
  | nil => intro b; cases b <;> rfl
  | cons x as ih =>
    intro b
    cases b with
    | nil => rfl
    | cons y bs =>
      show x * y + dotList as bs = y * x + dotList bs as
      rw [mul_comm, ih bs]

theorem dotList_sub_symm : ∀ a b : List ℝ,
    dotList (subList a b) (subList a b) = dotList (subList b a) (subList b a) := by
  intro a
  induction a with
  | nil => intro b; cases b <;> rfl
  | cons x as ih =>
    intro b
    cases b with
    | nil => rfl
    | cons y bs =>
      show (x - y) * (x - y) + dotList (subList as bs) (subList as bs)
        = (y - x) * (y - x) + dotList (subList bs as) (subList bs as)
      rw [ih bs, show (x - y) * (x - y) = (y - x) * (y - x) by ring]

/-- C10.  For all text pairs and both supported metrics,
`calculate_distance` is symmetric, purely because the dot product and the
norm of a difference are symmetric in their arguments — no symmetrization
is performed. -/
theorem calculate_distance_symm (emb : String → List ℝ) (a b : String) :
    calculateDistance emb a b "cosine" = calculateDistance emb b a "cosine"
    ∧ calculateDistance emb a b "euclidean" = calculateDistance emb b a "euclidean" := by
  constructor
  · unfold calculateDistance
    rw [if_pos rfl, if_pos rfl]
    congr 1
    unfold cosineDistance
    rw [dotList_comm (emb a) (emb b), mul_comm (normList (emb a)) (normList (emb b))]
  · unfold calculateDistance
    rw [if_neg (by decide : ¬ ("euclidean" = "cosine")),
        if_neg (by decide : ¬ ("euclidean" = "cosine")), if_pos rfl, if_pos rfl]
    congr 1
    unfold euclideanDistance normList
    rw [dotList_sub_symm (emb a) (emb b)]
